import Mathlib

/-
Verification of make_paper_slide.py (Paperflow).

Shallow embedding of the placeholder resolver, the body content composer,
the atomic save, the layout-index recovery, and the CLI load/save routing,
each translated from the source file src/make_paper_slide.py.

Modelling conventions:
- Placeholder shapes yielded by slide.placeholders are modelled by `Region`
  records carrying the placeholder kind (placeholder_format.type), the
  geometry (top, width, height, machine integers modelled as Int), the
  runtime capability hasattr(ph, "text_frame") as `hasTextFrame`, and the
  ph.is_placeholder flag as `isPlaceholder`.
- Python object identity (the comparison `ph is title_shape`) is modelled
  by tagging each region with its position in the declared order via `tag`;
  two tagged regions are the same object exactly when the tags coincide.
- Python sorted(...)[0] with a lexicographic key is the first element whose
  key is minimal (sorted is stable); Python max(...) with a key returns the
  first element whose key is maximal (max replaces the running best only on
  a strictly larger key).  Both are embedded as a fold that replaces the
  running best exactly when the new element is strictly better.
-/

set_option linter.unusedVariables false

/-- Placeholder kinds (PP_PLACEHOLDER values used by the script, plus a
catch-all for every other kind a theme may declare). -/
inductive PHKind where
  | TITLE
  | CENTER_TITLE
  | VERTICAL_TITLE
  | BODY
  | OBJECT
  | VERTICAL_BODY
  | SUBTITLE
  | DATE
  | SLIDE_NUMBER
  | FOOTER
  | HEADER
  | UNCLASSIFIED
deriving DecidableEq, Repr

/-- A placeholder region as the script observes it: placeholder kind,
geometry, text capability, and the is_placeholder flag. -/
structure Region where
  kind : PHKind
  top : Int
  width : Int
  height : Int
  hasTextFrame : Bool
  isPlaceholder : Bool
deriving DecidableEq, Repr

/-- s.width * s.height, the area key used by both geometric fallbacks. -/
def area (r : Region) : Int := r.width * r.height

/-- Membership in the TITLE_TYPES set of _pick_placeholders. -/
def TITLE_TYPES : PHKind → Bool
  | .TITLE | .CENTER_TITLE | .VERTICAL_TITLE => true
  | _ => false

/-- Membership in the BODY_TYPES set of _pick_placeholders. -/
def BODY_TYPES : PHKind → Bool
  | .BODY | .OBJECT | .VERTICAL_BODY => true
  | _ => false

/-- Membership in the EXCLUDE_AS_BODY set of _pick_placeholders. -/
def EXCLUDE_AS_BODY : PHKind → Bool
  | .TITLE | .CENTER_TITLE | .VERTICAL_TITLE | .SUBTITLE
  | .DATE | .SLIDE_NUMBER | .FOOTER | .HEADER => true
  | _ => false

/-- Tag each region with its position in the declared order; the tag plays
the role of Python object identity for the regions of one slide. -/
def tag : Nat → List Region → List (Nat × Region)
  | _, [] => []
  | n, r :: rest => (n, r) :: tag (n + 1) rest

/-- The first loop of _pick_placeholders: scan the placeholders in declared
order; skip shapes whose is_placeholder flag is false; take the first
title-kind shape as title and the first body-kind shape as body. -/
def firstPass : List (Nat × Region) → Option (Nat × Region) → Option (Nat × Region) →
    Option (Nat × Region) × Option (Nat × Region)
  | [], t, b => (t, b)
  | ph :: rest, t, b =>
    if ph.2.isPlaceholder = false then firstPass rest t b
    else if TITLE_TYPES ph.2.kind = true ∧ t = none then firstPass rest (some ph) b
    else if BODY_TYPES ph.2.kind = true ∧ b = none then firstPass rest t (some ph)
    else firstPass rest t b

/-- Strict lexicographic comparison of two integer pairs, as a Bool. -/
def lexLtB (p q : Int × Int) : Bool :=
  decide (p.1 < q.1) || (decide (p.1 = q.1) && decide (p.2 < q.2))

/-- Strict lexicographic order on integer pairs. -/
def lexLt (p q : Int × Int) : Prop :=
  p.1 < q.1 ∨ (p.1 = q.1 ∧ p.2 < q.2)

/-- Reflexive lexicographic order on integer pairs. -/
def lexLe (p q : Int × Int) : Prop :=
  p.1 < q.1 ∨ (p.1 = q.1 ∧ p.2 ≤ q.2)

/-- The sort key of the title fallback: lambda s: (s.top, -(s.width * s.height)). -/
def titleKey (a : Nat × Region) : Int × Int := (a.2.top, -(area a.2))

/-- a sorts strictly before b under the title fallback key. -/
def titleBetter (a b : Nat × Region) : Bool := lexLtB (titleKey a) (titleKey b)

/-- a has a strictly larger area key than b (the comparison max uses when it
replaces its running best). -/
def bodyBetter (a b : Nat × Region) : Bool := decide (area b.2 < area a.2)

/-- Fold computing the element Python sorted(...)[0] / max(...) would return:
the running best is replaced exactly when the new element is strictly better,
so the first element among those with the optimal key wins. -/
def foldBest {α : Type} (lt : α → α → Bool) (x : α) (xs : List α) : α :=
  xs.foldl (fun best y => if lt y best then y else best) x

/-- Title geometric fallback: sorted(text_phs, key=lambda s: (s.top,
-(s.width * s.height)))[0], or None when text_phs is empty. -/
def pickTitleFallback (phs : List (Nat × Region)) : Option (Nat × Region) :=
  match phs with
  | [] => none
  | x :: xs => some (foldBest titleBetter x xs)

/-- The candidate filter of the body fallback loop: skip the title object,
skip placeholder-format shapes whose kind is in EXCLUDE_AS_BODY, keep
shapes that have a text frame. -/
def bodyCandidate (t : Option (Nat × Region)) (ph : Nat × Region) : Bool :=
  !(decide (t = some ph)) &&
  !(ph.2.isPlaceholder && EXCLUDE_AS_BODY ph.2.kind) &&
  ph.2.hasTextFrame

/-- Body geometric fallback: max(candidates, key=lambda s: s.width * s.height)
when candidates is non-empty, else None. -/
def pickBodyFallback (t : Option (Nat × Region)) (phs : List (Nat × Region)) :
    Option (Nat × Region) :=
  match phs.filter (bodyCandidate t) with
  | [] => none
  | x :: xs => some (foldBest bodyBetter x xs)

/-- Title after the fallback step: keep the semantic choice when present. -/
def pickTitle (phs : List (Nat × Region)) (t0 : Option (Nat × Region)) :
    Option (Nat × Region) :=
  match t0 with
  | some x => some x
  | none => pickTitleFallback (phs.filter fun ph => ph.2.hasTextFrame)

/-- Body after the fallback step: keep the semantic choice when present. -/
def pickBody (phs : List (Nat × Region)) (t : Option (Nat × Region))
    (b0 : Option (Nat × Region)) : Option (Nat × Region) :=
  match b0 with
  | some y => some y
  | none => pickBodyFallback t phs

/-- _pick_placeholders(slide): semantic pass, then geometric fallbacks. -/
def pickPlaceholders (regions : List Region) :
    Option (Nat × Region) × Option (Nat × Region) :=
  let phs := tag 0 regions
  let fp := firstPass phs none none
  let t := pickTitle phs fp.1
  (t, pickBody phs t fp.2)

/-- The body-fallback candidate list exactly as claim C3 words it: the
text-capable declared regions other than the chosen title region and other
than regions whose kind is in the excluded set. -/
def bodyCandidatesClaim (rs : List Region) : List (Nat × Region) :=
  (tag 0 rs).filter fun ph =>
    ph.2.hasTextFrame &&
    !(decide ((pickPlaceholders rs).1 = some ph)) &&
    !(EXCLUDE_AS_BODY ph.2.kind)

/-- One paragraph of the composed body text: its text, indent level and
font size in points. -/
structure BodyLine where
  text : String
  level : Nat
  fontSize : Nat
deriving DecidableEq, Repr

/-- The body content composer of add_slide: paragraph 0 is the link line
(size 14); then for (rel_label, reason) and (app_label, usage), in that
order, a level-1 size-14 line "label: value" is appended when the value is
non-empty. -/
def composeBody (link reason usage rel_label app_label : String) : List BodyLine :=
  { text := if link ≠ "" then "Link: " ++ link else "Link: (n/a)",
    level := 0, fontSize := 14 } ::
  ([(rel_label, reason), (app_label, usage)].filterMap fun lv =>
    if lv.2 ≠ "" then
      some { text := lv.1 ++ ": " ++ lv.2, level := 1, fontSize := 14 }
    else none)

/-- Relevant filesystem state around save_atomic: the destination content
and whether the temp file (created in the destination directory) exists,
with its content. -/
structure FSState where
  destContent : Option Nat
  tmpExists : Bool
  tmpContent : Option Nat
deriving DecidableEq, Repr

/-- The three statements inside the try block of save_atomic. -/
inductive SaveOp where
  | prsSave
  | sleepStep
  | osReplace
deriving DecidableEq, Repr

/-- Outcome of save_atomic: normal return or a re-raised exception. -/
inductive SaveOutcome where
  | ok
  | raised
deriving DecidableEq, Repr

/-- One statement of the try block: prs.save writes the temp file (and can
fail), time.sleep never fails, os.replace atomically renames the temp file
onto the destination (and can fail).  The Bool result signals an exception. -/
def runOp (content : Nat) (saveFails replaceFails : Bool) :
    FSState → SaveOp → FSState × Bool
  | s, .prsSave =>
    if saveFails then (s, true) else ({ s with tmpContent := some content }, false)
  | s, .sleepStep => (s, false)
  | s, .osReplace =>
    if replaceFails then (s, true)
    else ({ destContent := s.tmpContent, tmpExists := false, tmpContent := none }, false)

/-- Run the try-block statements in order, stopping at the first exception. -/
def runBody (content : Nat) (sf rf : Bool) :
    List SaveOp → FSState → FSState × Bool
  | [], s => (s, false)
  | op :: rest, s =>
    let r := runOp content sf rf s op
    if r.2 then (r.1, true) else runBody content sf rf rest r.1

/-- The except handler: if tmp_path.exists(): tmp_path.unlink(). -/
def cleanupTmp (s : FSState) : FSState :=
  if s.tmpExists then { s with tmpExists := false, tmpContent := none } else s

/-- save_atomic(prs, dest): create the temp file next to the destination,
run the try block, and on exception remove the temp file and re-raise. -/
def save_atomic (content : Nat) (sf rf : Bool) (dest0 : Option Nat) :
    FSState × SaveOutcome :=
  let s0 : FSState := { destContent := dest0, tmpExists := true, tmpContent := none }
  let r := runBody content sf rf [SaveOp.prsSave, SaveOp.sleepStep, SaveOp.osReplace] s0
  if r.2 then (cleanupTmp r.1, SaveOutcome.raised) else (r.1, SaveOutcome.ok)

/-- Python sequence indexing for prs.slide_layouts: valid for
-n <= i < n, with negative indices counted from the end; None models the
IndexError raise. -/
def pyIndex (n : Nat) (i : Int) : Option Nat :=
  if 0 ≤ i ∧ i < (n : Int) then some i.toNat
  else if -(n : Int) ≤ i ∧ i < 0 then some ((n : Int) + i).toNat
  else none

/-- The layout-obtaining step of add_slide: try prs.slide_layouts[idx];
on any exception warn on stderr (the Bool flag) and use
prs.slide_layouts[0]; None models an uncaught exception (no slide added). -/
def chooseLayout (n : Nat) (idx : Int) : Option (Nat × Bool) :=
  match pyIndex n idx with
  | some k => some (k, false)
  | none =>
    match pyIndex n 0 with
    | some k => some (k, true)
    | none => none

/-- The slide title text set by add_slide: title or "(title pending)",
where a Python string is falsy exactly when it is empty. -/
def titleText (title : String) : String :=
  if title = "" then "(title pending)" else title

/-- One character of the filename sanitizer:
c if c.isalnum() or c in (" ", "_", "-") else "_". -/
def sanitizeChar (c : Char) : Char :=
  if c.isAlphanum ∨ c = ' ' ∨ c = '_' ∨ c = '-' then c else '_'

/-- Truthiness of title.strip(): true exactly when the string holds a
non-whitespace character. -/
def stripTruthy (s : String) : Bool :=
  s.toList.any fun c => !c.isWhitespace

/-- The safe_name computation of main: default to "paper" when
title.strip() is falsy, then map sanitizeChar over the characters and
truncate to 80 characters. -/
def safeName (title : String) : String :=
  let base := if stripTruthy title then title else "paper"
  ((base.toList.map sanitizeChar).take 80).asString

/-- Modelled from the words of claim C6 (the spec): keep alphanumerics,
spaces, underscores and hyphens, replace every other character with an
underscore. -/
def sanitizeCharClaimed (c : Char) : Char :=
  if c.isAlphanum then c
  else if c = ' ' ∨ c = '_' ∨ c = '-' then c
  else '_'

/-- Modelled from the words of claim C6 (the spec): sanitize, truncate to
80 characters, and default to "paper" when the sanitized title is empty. -/
def safeNameClaimed (title : String) : String :=
  let s := ((title.toList.map sanitizeCharClaimed).take 80).asString
  if s = "" then "paper" else s

/-- The amended sanitizer policy: the "paper" default applies when the
title is empty or consists only of whitespace, before sanitization. -/
def safeNameAmended (title : String) : String :=
  if title.toList.all (fun c => c.isWhitespace) then "paper"
  else ((title.toList.map sanitizeCharClaimed).take 80).asString

/-- The CLI inputs that decide the load source and the save target, with
the two filesystem existence checks the code performs. -/
structure CliArgs where
  title : String
  deck : String
  theme : String
  outdir : String
  deckExists : Bool
  themeExists : Bool
deriving DecidableEq, Repr

/-- Where main obtains its base presentation from. -/
inductive LoadSource where
  | fromDeck
  | fromTheme
  | blankDoc
deriving DecidableEq, Repr

/-- Where main saves the resulting presentation. -/
inductive SaveTarget where
  | toDeck (path : String)
  | toOutdir (dir : String) (fileName : String)
deriving DecidableEq, Repr

/-- The load chain of main: existing deck, else existing theme, else a
blank presentation (a non-empty Python string is truthy). -/
def loadSource (a : CliArgs) : LoadSource :=
  if a.deck ≠ "" ∧ a.deckExists then LoadSource.fromDeck
  else if a.theme ≠ "" ∧ a.themeExists then LoadSource.fromTheme
  else LoadSource.blankDoc

/-- The save branch of main: if args.deck (truthy) save to the deck path,
else save under outdir with the sanitized title as file name. -/
def saveTarget (a : CliArgs) : SaveTarget :=
  if a.deck ≠ "" then SaveTarget.toDeck a.deck
  else SaveTarget.toOutdir a.outdir (safeName a.title ++ ".pptx")

/-- Modelled from the words of claim C5 (the spec): the deck path is used
for saving only when it names an existing file; otherwise the output goes
under outdir. -/
def saveTargetClaimed (a : CliArgs) : SaveTarget :=
  if a.deck ≠ "" ∧ a.deckExists then SaveTarget.toDeck a.deck
  else SaveTarget.toOutdir a.outdir (safeName a.title ++ ".pptx")

/-- Modelled from the words of claim C5 (the spec), load part: load the
deck when it is given and exists, else the theme when it is given and
exists, else start blank. -/
def loadSourceClaimed (a : CliArgs) : LoadSource :=
  if a.deckExists ∧ a.deck ≠ "" then LoadSource.fromDeck
  else if a.themeExists ∧ a.theme ≠ "" then LoadSource.fromTheme
  else LoadSource.blankDoc

/-- The amended save routing: any non-empty deck argument, existing or
not, is used as the save path. -/
def saveTargetAmended (a : CliArgs) : SaveTarget :=
  if a.deck = "" then SaveTarget.toOutdir a.outdir (safeName a.title ++ ".pptx")
  else SaveTarget.toDeck a.deck

/-- Counterexample input for claim C1: a single body-tagged placeholder
with a text frame. -/
def rOnlyBody : Region :=
  { kind := PHKind.BODY, top := 0, width := 100, height := 100,
    hasTextFrame := true, isPlaceholder := true }

/-- Counterexample input for claim C4: an OBJECT placeholder declared
before the TITLE and BODY placeholders. -/
def rObj4 : Region :=
  { kind := PHKind.OBJECT, top := 300, width := 50, height := 50,
    hasTextFrame := true, isPlaceholder := true }

/-- The unique TITLE-tagged placeholder of the C4 counterexample. -/
def rTitle4 : Region :=
  { kind := PHKind.TITLE, top := 0, width := 900, height := 100,
    hasTextFrame := true, isPlaceholder := true }

/-- The unique BODY-tagged placeholder of the C4 counterexample. -/
def rBody4 : Region :=
  { kind := PHKind.BODY, top := 120, width := 900, height := 500,
    hasTextFrame := true, isPlaceholder := true }

/-- Counterexample input for claim C5: a deck path that names no existing
file. -/
def argsMissingDeck : CliArgs :=
  { title := "T", deck := "missing.pptx", theme := "", outdir := "out",
    deckExists := false, themeExists := false }

/-- Witness input for claim C10: a whitespace-only title and no deck. -/
def argsBlankTitle : CliArgs :=
  { title := " ", deck := "", theme := "", outdir := "out",
    deckExists := false, themeExists := false }

/-- Witness input for claim C2: two untagged text-capable regions at
different heights, the lower one declared first. -/
def rLow2 : Region :=
  { kind := PHKind.UNCLASSIFIED, top := 200, width := 40, height := 40,
    hasTextFrame := true, isPlaceholder := true }

/-- Witness input for claim C2: the higher of the two untagged regions. -/
def rHigh2 : Region :=
  { kind := PHKind.UNCLASSIFIED, top := 50, width := 30, height := 30,
    hasTextFrame := true, isPlaceholder := true }

/-- Witness input for claim C3: a title-tagged placeholder. -/
def rTitle3 : Region :=
  { kind := PHKind.TITLE, top := 0, width := 900, height := 100,
    hasTextFrame := true, isPlaceholder := true }

/-- Witness input for claim C3: a small untagged text-capable region. -/
def rSmall3 : Region :=
  { kind := PHKind.UNCLASSIFIED, top := 500, width := 20, height := 20,
    hasTextFrame := true, isPlaceholder := true }

/-- Witness input for claim C3: a large untagged text-capable region. -/
def rBig3 : Region :=
  { kind := PHKind.UNCLASSIFIED, top := 150, width := 600, height := 400,
    hasTextFrame := true, isPlaceholder := true }

/-- Witness input for claim C1: a TITLE placeholder followed by a BODY
placeholder. -/
def rTitle1 : Region :=
  { kind := PHKind.TITLE, top := 0, width := 900, height := 100,
    hasTextFrame := true, isPlaceholder := true }

/-- Witness input for claim C1: the BODY placeholder. -/
def rBody1 : Region :=
  { kind := PHKind.BODY, top := 120, width := 900, height := 500,
    hasTextFrame := true, isPlaceholder := true }

/-- Bool form of the strict lexicographic order agrees with the Prop form. -/
theorem lexLtB_iff (p q : Int × Int) : lexLtB p q = true ↔ lexLt p q := by
  simp [lexLtB, lexLt]

/-- A false strict lexicographic comparison yields the reversed reflexive one. -/
theorem lexLe_of_lexLtB_false {p q : Int × Int} (h : lexLtB p q = false) :
    lexLe q p := by
  have hn : ¬ lexLt p q := by
    intro hc
    rw [(lexLtB_iff p q).mpr hc] at h
    cases h
  obtain ⟨p1, p2⟩ := p
  obtain ⟨q1, q2⟩ := q
  simp [lexLt, lexLe] at hn ⊢
  omega

/-- Transitivity of strict-then-reflexive lexicographic comparison. -/
theorem lexLt_le_trans {p q r : Int × Int} (h1 : lexLt p q) (h2 : lexLe q r) :
    lexLt p r := by
  obtain ⟨p1, p2⟩ := p
  obtain ⟨q1, q2⟩ := q
  obtain ⟨r1, r2⟩ := r
  simp [lexLt, lexLe] at h1 h2 ⊢
  omega

/-- Transitivity of reflexive-then-strict lexicographic comparison. -/
theorem lexLe_lt_trans {p q r : Int × Int} (h1 : lexLe p q) (h2 : lexLt q r) :
    lexLt p r := by
  obtain ⟨p1, p2⟩ := p
  obtain ⟨q1, q2⟩ := q
  obtain ⟨r1, r2⟩ := r
  simp [lexLt, lexLe] at h1 h2 ⊢
  omega

/-- The strict lexicographic order is contained in the reflexive one. -/
theorem lexLt_to_le {p q : Int × Int} (h : lexLt p q) : lexLe p q := by
  obtain ⟨p1, p2⟩ := p
  obtain ⟨q1, q2⟩ := q
  simp [lexLt, lexLe] at h ⊢
  omega

/-- Reflexivity of the reflexive lexicographic order. -/
theorem lexLe_refl (p : Int × Int) : lexLe p p := Or.inr ⟨rfl, le_refl _⟩

/-- The fold over the remaining elements returns some element of the list. -/
theorem foldBest_mem {α : Type} (lt : α → α → Bool) :
    ∀ (xs : List α) (x : α), foldBest lt x xs ∈ x :: xs := by
  intro xs
  induction xs with
  | nil => intro x; simp [foldBest]
  | cons z zs ih =>
    intro x
    have e : foldBest lt x (z :: zs) = foldBest lt (if lt z x then z else x) zs := by
      simp [foldBest, List.foldl_cons]
    rw [e]
    by_cases h : lt z x = true
    · rw [if_pos h]
      rcases List.mem_cons.mp (ih z) with he | hm
      · rw [he]; exact List.mem_cons_of_mem _ (List.mem_cons_self _ _)
      · exact List.mem_cons_of_mem _ (List.mem_cons_of_mem _ hm)
    · rw [if_neg h]
      rcases List.mem_cons.mp (ih x) with he | hm
      · rw [he]; exact List.mem_cons_self _ _
      · exact List.mem_cons_of_mem _ (List.mem_cons_of_mem _ hm)

/-- Specification of the strictly-better-replaces fold: it splits the list
around the returned element, every element before it is strictly worse, and
every element of the list is at most as good. -/
theorem foldBest_spec {α : Type} (lt : α → α → Bool) (S R : α → α → Prop)
    (hTrue : ∀ a b, lt a b = true → S a b)
    (hFalse : ∀ a b, lt a b = false → R b a)
    (hSR : ∀ a b c, S a b → R b c → S a c)
    (hRS : ∀ a b c, R a b → S b c → S a c)
    (hSsubR : ∀ a b, S a b → R a b)
    (hRrefl : ∀ a, R a a) :
    ∀ (xs : List α) (x : α),
      ∃ l1 l2, x :: xs = l1 ++ foldBest lt x xs :: l2 ∧
        (∀ y ∈ l1, S (foldBest lt x xs) y) ∧
        (∀ y ∈ x :: xs, R (foldBest lt x xs) y) := by
  intro xs
  induction xs with
  | nil =>
    intro x
    refine ⟨[], [], by simp [foldBest], ?_, ?_⟩
    · intro y hy; simp at hy
    · intro y hy
      simp at hy
      subst hy
      simpa [foldBest] using hRrefl _
  | cons z zs ih =>
    intro x
    by_cases h : lt z x = true
    · have e : foldBest lt x (z :: zs) = foldBest lt z zs := by
        simp [foldBest, List.foldl_cons, h]
      have hSzx : S z x := hTrue z x h
      obtain ⟨l1, l2, hsplit, hS, hR⟩ := ih z
      have hSbx : S (foldBest lt z zs) x :=
        hRS _ _ _ (hR z (List.mem_cons_self _ _)) hSzx
      refine ⟨x :: l1, l2, ?_, ?_, ?_⟩
      · rw [e, List.cons_append, ← hsplit]
      · intro y hy
        rw [e]
        rcases List.mem_cons.mp hy with rfl | hy2
        · exact hSbx
        · exact hS y hy2
      · intro y hy
        rw [e]
        rcases List.mem_cons.mp hy with rfl | hy2
        · exact hSsubR _ _ hSbx
        · exact hR y hy2
    · have hb : lt z x = false := by simpa using h
      have e : foldBest lt x (z :: zs) = foldBest lt x zs := by
        simp [foldBest, List.foldl_cons, hb]
      have hRxz : R x z := hFalse z x hb
      obtain ⟨l1, l2, hsplit, hS, hR⟩ := ih x
      cases l1 with
      | nil =>
        simp only [List.nil_append] at hsplit
        have hx : x = foldBest lt x zs := (List.cons.injEq _ _ _ _).mp hsplit |>.1
        have hzs : zs = l2 := (List.cons.injEq _ _ _ _).mp hsplit |>.2
        refine ⟨[], z :: l2, ?_, ?_, ?_⟩
        · rw [e, List.nil_append, ← hx, hzs]
        · intro y hy; simp at hy
        · intro y hy
          rw [e]
          rcases List.mem_cons.mp hy with rfl | hy2
          · exact hR y (List.mem_cons_self _ _)
          · rcases List.mem_cons.mp hy2 with rfl | hy3
            · rw [← hx]; exact hRxz
            · exact hR y (List.mem_cons_of_mem _ hy3)
      | cons a l1t =>
        simp only [List.cons_append] at hsplit
        have ha : x = a := (List.cons.injEq _ _ _ _).mp hsplit |>.1
        have hzs : zs = l1t ++ foldBest lt x zs :: l2 :=
          (List.cons.injEq _ _ _ _).mp hsplit |>.2
        have hSbx : S (foldBest lt x zs) x := hS x (by rw [ha]; exact List.mem_cons_self _ _)
        have hSbz : S (foldBest lt x zs) z := hSR _ _ _ hSbx hRxz
        refine ⟨x :: z :: l1t, l2, ?_, ?_, ?_⟩
        · rw [e]
          simp only [List.cons_append]
          rw [← hzs]
        · intro y hy
          rw [e]
          rcases List.mem_cons.mp hy with rfl | hy2
          · exact hSbx
          · rcases List.mem_cons.mp hy2 with rfl | hy3
            · exact hSbz
            · exact hS y (List.mem_cons_of_mem _ hy3)
        · intro y hy
          rw [e]
          rcases List.mem_cons.mp hy with rfl | hy2
          · exact hSsubR _ _ hSbx
          · rcases List.mem_cons.mp hy2 with rfl | hy3
            · exact hSsubR _ _ hSbz
            · exact hR y (List.mem_cons_of_mem _ hy3)

/-- A tagged region is a region of the underlying list. -/
theorem mem_of_mem_tag : ∀ {n : Nat} {l : List Region} {p : Nat × Region},
    p ∈ tag n l → p.2 ∈ l := by
  intro n l
  induction l generalizing n with
  | nil => intro p h; simp [tag] at h
  | cons r rest ih =>
    intro p h
    rw [tag] at h
    rcases List.mem_cons.mp h with rfl | h2
    · exact List.mem_cons_self _ _
    · exact List.mem_cons_of_mem _ (ih h2)

/-- Every region of the list occurs tagged in the tagged list. -/
theorem tag_mem_of_mem : ∀ {l : List Region} {r : Region} (n : Nat),
    r ∈ l → ∃ i, (i, r) ∈ tag n l := by
  intro l
  induction l with
  | nil => intro r n h; simp at h
  | cons x rest ih =>
    intro r n h
    rcases List.mem_cons.mp h with rfl | h2
    · exact ⟨n, by rw [tag]; exact List.mem_cons_self _ _⟩
    · obtain ⟨i, hi⟩ := ih (n + 1) h2
      exact ⟨i, by rw [tag]; exact List.mem_cons_of_mem _ hi⟩

/-- The first pass never changes a title choice that is already made. -/
theorem firstPass_fst_some : ∀ (l : List (Nat × Region)) (x : Nat × Region)
    (b : Option (Nat × Region)), (firstPass l (some x) b).1 = some x := by
  intro l
  induction l with
  | nil => intro x b; rfl
  | cons ph rest ih =>
    intro x b
    simp only [firstPass]
    split_ifs with h1 h2 h3
    · exact ih x b
    · exact h2.2.elim
    · exact ih x (some ph)
    · exact ih x b

/-- The first pass never changes a body choice that is already made. -/
theorem firstPass_snd_some : ∀ (l : List (Nat × Region)) (y : Nat × Region)
    (t : Option (Nat × Region)), (firstPass l t (some y)).2 = some y := by
  intro l
  induction l with
  | nil => intro y t; rfl
  | cons ph rest ih =>
    intro y t
    simp only [firstPass]
    split_ifs with h1 h2 h3
    · exact ih y t
    · exact ih y (some ph)
    · exact h3.2.elim
    · exact ih y t

/-- A title produced by the first pass is either the incoming choice or a
scanned placeholder with a title-like kind. -/
theorem firstPass_fst_mem : ∀ (l : List (Nat × Region)) (t b : Option (Nat × Region)),
    (firstPass l t b).1 = t ∨
    ∃ x ∈ l, (firstPass l t b).1 = some x ∧
      x.2.isPlaceholder = true ∧ TITLE_TYPES x.2.kind = true := by
  intro l
  induction l with
  | nil => intro t b; left; rfl
  | cons ph rest ih =>
    intro t b
    simp only [firstPass]
    split_ifs with h1 h2 h3
    · rcases ih t b with h | ⟨x, hx, he, hp, hk⟩
      · left; exact h
      · right; exact ⟨x, List.mem_cons_of_mem _ hx, he, hp, hk⟩
    · right
      refine ⟨ph, List.mem_cons_self _ _, firstPass_fst_some rest ph b, ?_, h2.1⟩
      cases hp : ph.2.isPlaceholder
      · exact absurd hp h1
      · rfl
    · rcases ih t (some ph) with h | ⟨x, hx, he, hp, hk⟩
      · left; exact h
      · right; exact ⟨x, List.mem_cons_of_mem _ hx, he, hp, hk⟩
    · rcases ih t b with h | ⟨x, hx, he, hp, hk⟩
      · left; exact h
      · right; exact ⟨x, List.mem_cons_of_mem _ hx, he, hp, hk⟩

/-- A body produced by the first pass is either the incoming choice or a
scanned placeholder with a body-like kind. -/
theorem firstPass_snd_mem : ∀ (l : List (Nat × Region)) (t b : Option (Nat × Region)),
    (firstPass l t b).2 = b ∨
    ∃ y ∈ l, (firstPass l t b).2 = some y ∧
      y.2.isPlaceholder = true ∧ BODY_TYPES y.2.kind = true := by
  intro l
  induction l with
  | nil => intro t b; left; rfl
  | cons ph rest ih =>
    intro t b
    simp only [firstPass]
    split_ifs with h1 h2 h3
    · rcases ih t b with h | ⟨y, hy, he, hp, hk⟩
      · left; exact h
      · right; exact ⟨y, List.mem_cons_of_mem _ hy, he, hp, hk⟩
    · rcases ih (some ph) b with h | ⟨y, hy, he, hp, hk⟩
      · left; exact h
      · right; exact ⟨y, List.mem_cons_of_mem _ hy, he, hp, hk⟩
    · right
      refine ⟨ph, List.mem_cons_self _ _, firstPass_snd_some rest ph t, ?_, h3.1⟩
      cases hp : ph.2.isPlaceholder
      · exact absurd hp h1
      · rfl
    · rcases ih t b with h | ⟨y, hy, he, hp, hk⟩
      · left; exact h
      · right; exact ⟨y, List.mem_cons_of_mem _ hy, he, hp, hk⟩

/-- If no scanned shape is a placeholder with a title-like kind, the first
pass finds no title. -/
theorem firstPass_fst_none : ∀ (l : List (Nat × Region)) (b : Option (Nat × Region)),
    (∀ x ∈ l, ¬(x.2.isPlaceholder = true ∧ TITLE_TYPES x.2.kind = true)) →
    (firstPass l none b).1 = none := by
  intro l
  induction l with
  | nil => intro b h; rfl
  | cons ph rest ih =>
    intro b h
    simp only [firstPass]
    split_ifs with h1 h2 h3
    · exact ih b fun x hx => h x (List.mem_cons_of_mem _ hx)
    · exfalso
      refine h ph (List.mem_cons_self _ _) ⟨?_, h2.1⟩
      cases hp : ph.2.isPlaceholder
      · exact absurd hp h1
      · rfl
    · exact ih (some ph) fun x hx => h x (List.mem_cons_of_mem _ hx)
    · exact ih b fun x hx => h x (List.mem_cons_of_mem _ hx)

/-- If no scanned shape is a placeholder with a body-like kind, the first
pass finds no body. -/
theorem firstPass_snd_none : ∀ (l : List (Nat × Region)) (t : Option (Nat × Region)),
    (∀ y ∈ l, ¬(y.2.isPlaceholder = true ∧ BODY_TYPES y.2.kind = true)) →
    (firstPass l t none).2 = none := by
  intro l
  induction l with
  | nil => intro t h; rfl
  | cons ph rest ih =>
    intro t h
    simp only [firstPass]
    split_ifs with h1 h2 h3
    · exact ih t fun y hy => h y (List.mem_cons_of_mem _ hy)
    · exact ih (some ph) fun y hy => h y (List.mem_cons_of_mem _ hy)
    · exfalso
      refine h ph (List.mem_cons_self _ _) ⟨?_, h3.1⟩
      cases hp : ph.2.isPlaceholder
      · exact absurd hp h1
      · rfl
    · exact ih t fun y hy => h y (List.mem_cons_of_mem _ hy)

/-- No placeholder kind is both title-like and body-like. -/
theorem title_body_disjoint : ∀ k, ¬(TITLE_TYPES k = true ∧ BODY_TYPES k = true) := by
  intro k
  cases k <;> simp [TITLE_TYPES, BODY_TYPES]

/-- If some scanned shape is a placeholder with a title-like kind, the first
pass returns a title. -/
theorem firstPass_fst_isSome : ∀ (l : List (Nat × Region)) (t b : Option (Nat × Region)),
    (∃ x ∈ l, x.2.isPlaceholder = true ∧ TITLE_TYPES x.2.kind = true) →
    (firstPass l t b).1.isSome := by
  intro l
  induction l with
  | nil => intro t b h; simp at h
  | cons ph rest ih =>
    intro t b h
    simp only [firstPass]
    split_ifs with h1 h2 h3
    · apply ih
      obtain ⟨x, hx, hp, hk⟩ := h
      rcases List.mem_cons.mp hx with rfl | hx2
      · rw [h1] at hp; cases hp
      · exact ⟨x, hx2, hp, hk⟩
    · rw [firstPass_fst_some]; rfl
    · cases t with
      | some x => rw [firstPass_fst_some]; rfl
      | none =>
        apply ih
        obtain ⟨x, hx, hp, hk⟩ := h
        rcases List.mem_cons.mp hx with rfl | hx2
        · exact absurd ⟨hk, rfl⟩ h2
        · exact ⟨x, hx2, hp, hk⟩
    · cases t with
      | some x => rw [firstPass_fst_some]; rfl
      | none =>
        apply ih
        obtain ⟨x, hx, hp, hk⟩ := h
        rcases List.mem_cons.mp hx with rfl | hx2
        · exact absurd ⟨hk, rfl⟩ h2
        · exact ⟨x, hx2, hp, hk⟩

/-- If some scanned shape is a placeholder with a body-like kind, the first
pass returns a body. -/
theorem firstPass_snd_isSome : ∀ (l : List (Nat × Region)) (t b : Option (Nat × Region)),
    (∃ y ∈ l, y.2.isPlaceholder = true ∧ BODY_TYPES y.2.kind = true) →
    (firstPass l t b).2.isSome := by
  intro l
  induction l with
  | nil => intro t b h; simp at h
  | cons ph rest ih =>
    intro t b h
    simp only [firstPass]
    split_ifs with h1 h2 h3
    · apply ih
      obtain ⟨y, hy, hp, hk⟩ := h
      rcases List.mem_cons.mp hy with rfl | hy2
      · rw [h1] at hp; cases hp
      · exact ⟨y, hy2, hp, hk⟩
    · apply ih
      obtain ⟨y, hy, hp, hk⟩ := h
      rcases List.mem_cons.mp hy with rfl | hy2
      · exact absurd ⟨h2.1, hk⟩ (title_body_disjoint y.2.kind)
      · exact ⟨y, hy2, hp, hk⟩
    · rw [firstPass_snd_some]; rfl
    · cases b with
      | some y => rw [firstPass_snd_some]; rfl
      | none =>
        apply ih
        obtain ⟨y, hy, hp, hk⟩ := h
        rcases List.mem_cons.mp hy with rfl | hy2
        · exact absurd ⟨hk, rfl⟩ h3
        · exact ⟨y, hy2, hp, hk⟩

/-- A body returned by the geometric fallback passes the candidate filter
(in particular it is not the title object). -/
theorem pickBodyFallback_some_candidate {t : Option (Nat × Region)}
    {phs : List (Nat × Region)} {y : Nat × Region}
    (h : pickBodyFallback t phs = some y) : bodyCandidate t y = true := by
  rcases hf : phs.filter (bodyCandidate t) with _ | ⟨x, xs⟩
  · rw [pickBodyFallback, hf] at h
    cases h
  · rw [pickBodyFallback, hf] at h
    have hy : y ∈ x :: xs := by
      have := foldBest_mem bodyBetter xs x
      rwa [Option.some_inj.mp h] at this
    rw [← hf] at hy
    exact (List.mem_filter.mp hy).2

/-- Characters map equally under the source sanitizer and the sanitizer
transcribed from the claim. -/
theorem sanitizeChar_eq_claimed : ∀ c, sanitizeChar c = sanitizeCharClaimed c := by
  intro c
  by_cases h1 : c.isAlphanum = true
  · simp [sanitizeChar, sanitizeCharClaimed, h1]
  · by_cases h2 : c = ' ' ∨ c = '_' ∨ c = '-'
    · simp [sanitizeChar, sanitizeCharClaimed, h1, h2]
    · simp [sanitizeChar, sanitizeCharClaimed, h1, h2]

/-- Truthiness of title.strip() is the negation of the all-whitespace test. -/
theorem stripTruthy_eq (s : String) :
    stripTruthy s = !(s.toList.all fun c => c.isWhitespace) := by
  unfold stripTruthy
  induction s.toList with
  | nil => rfl
  | cons c l ih => simp only [List.any_cons, List.all_cons, ih, Bool.not_and]

/-- Claim C5, counterexample: with --deck naming a non-existent file the
program saves to the deck path, while the claim prescribes a save under
--outdir with the sanitized title. -/
theorem c5_counterexample :
    saveTarget argsMissingDeck = SaveTarget.toDeck "missing.pptx" ∧
    saveTargetClaimed argsMissingDeck = SaveTarget.toOutdir "out" "T.pptx" ∧
    saveTarget argsMissingDeck ≠ saveTargetClaimed argsMissingDeck := by
  refine ⟨?_, ?_, ?_⟩ <;> decide

/-- Claim C5 (amended): the load chain is deck-if-existing, then
theme-if-existing, then blank, exactly as claimed; the save target is the
deck path whenever --deck is non-empty (even if that file does not exist),
and --outdir/<sanitized-title>.pptx only when --deck is absent. -/
theorem c5_load_save_routing :
    ∀ a : CliArgs, loadSource a = loadSourceClaimed a ∧
      saveTarget a = saveTargetAmended a := by
  intro a
  constructor
  · by_cases h1 : a.deck = "" <;> by_cases h2 : a.deckExists = true <;>
      by_cases h3 : a.theme = "" <;> by_cases h4 : a.themeExists = true <;>
      simp [loadSource, loadSourceClaimed, h1, h2, h3, h4]
  · by_cases h1 : a.deck = "" <;> simp [saveTarget, saveTargetAmended, h1]

/-- Claim C6, counterexample: for the whitespace-only title " " the code
produces "paper" while the claimed procedure (default only when the
sanitized title is empty) keeps the single space. -/
theorem c6_counterexample :
    safeName " " = "paper" ∧ safeNameClaimed " " = " " ∧
    safeName " " ≠ safeNameClaimed " " := by
  refine ⟨?_, ?_, ?_⟩ <;> decide

/-- Claim C6 (amended): the output filename stem keeps alphanumerics,
spaces, underscores and hyphens, replaces every other character with an
underscore and truncates to 80 characters, but the "paper" default applies
when the raw title is empty or whitespace-only, before sanitization; the
title "A/B: Test?" yields the stem "A_B_ Test_". -/
theorem c6_sanitize :
    (∀ t, safeName t = safeNameAmended t) ∧ safeName "A/B: Test?" = "A_B_ Test_" := by
  constructor
  · intro t
    have hf : sanitizeChar = sanitizeCharClaimed := funext sanitizeChar_eq_claimed
    by_cases h : (t.toList.all fun c => c.isWhitespace) = true
    · have hs : stripTruthy t = false := by rw [stripTruthy_eq, h]; rfl
      simp only [safeName, safeNameAmended, hs, h, if_true, if_false,
        Bool.false_eq_true]
      decide
    · have h2 : (t.toList.all fun c => c.isWhitespace) = false := by
        simpa using h
      have hs : stripTruthy t = true := by rw [stripTruthy_eq, h2]; rfl
      simp only [safeName, safeNameAmended, hs, h2, if_true, if_false,
        Bool.false_eq_true, hf]
  · decide

/-- Claim C7: for every failure mode of the temp-file write or the rename,
save_atomic leaves the destination content unchanged, removes the temp file
before the exception propagates, and re-raises; on success the destination
carries the new content via the atomic rename and no temp file remains. -/
theorem c7_save_atomic_contract :
    ∀ (content : Nat) (sf rf : Bool) (dest0 : Option Nat),
      (save_atomic content sf rf dest0).1.tmpExists = false ∧
      (save_atomic content sf rf dest0).1.destContent =
        (if sf || rf then dest0 else some content) ∧
      (save_atomic content sf rf dest0).2 =
        (if sf || rf then SaveOutcome.raised else SaveOutcome.ok) := by
  intro content sf rf dest0
  cases sf <;> cases rf <;>
    simp [save_atomic, runBody, runOp, cleanupTmp]

/-- Claim C8: the composed body starts with the link line ("(n/a)" when the
link is empty), then appends a level-1 size-14 "label: value" line for the
relevance pair and then the application pair exactly when the value is
non-empty; the concrete instance of the claim produces exactly the lines
"Link: https://x" and "Application: Z". -/
theorem c8_compose_body :
    (∀ link reason usage rl al,
      composeBody link reason usage rl al =
        { text := if link ≠ "" then "Link: " ++ link else "Link: (n/a)",
          level := 0, fontSize := 14 } ::
        ((if reason ≠ "" then
            [{ text := rl ++ ": " ++ reason, level := 1, fontSize := 14 }]
          else []) ++
         (if usage ≠ "" then
            [{ text := al ++ ": " ++ usage, level := 1, fontSize := 14 }]
          else []))) ∧
    (composeBody "https://x" "" "Z" "Relevance" "Application").map BodyLine.text =
      ["Link: https://x", "Application: Z"] := by
  constructor
  · intro link reason usage rl al
    by_cases hr : reason = "" <;> by_cases hu : usage = "" <;>
      simp [composeBody, hr, hu]
  · decide

/-- Claim C9: when indexing the layouts with the requested index fails,
add_slide emits a warning on the error stream (the Bool flag) and proceeds
with layout 0 instead of aborting, so a slide is still added (the result is
not none); stated for presentations exposing at least one layout. -/
theorem c9_layout_fallback (n : Nat) (idx : Int)
    (hfail : pyIndex n idx = none) (hn : 0 < n) :
    chooseLayout n idx = some (0, true) := by
  have h0 : pyIndex n 0 = some 0 := by
    have hc : (0 : Int) ≤ 0 ∧ (0 : Int) < (n : Int) := ⟨le_refl _, by exact_mod_cast hn⟩
    simp [pyIndex, hc]
  simp [chooseLayout, hfail, h0]

/-- Witness for claim C9 at the concrete failing index 5 of a 2-layout
presentation. -/
theorem c9_witness : chooseLayout 2 5 = some (0, true) :=
  c9_layout_fallback 2 5 (by decide) (by decide)

/-- Claim C10, counterexample: for the whitespace-only title " " the slide
title text is the whitespace itself, not "(title pending)" as claimed
(a non-empty Python string is truthy). -/
theorem c10_counterexample : titleText " " ≠ "(title pending)" := by decide

/-- Claim C10 (amended): the "(title pending)" fallback applies only to the
exactly-empty title; a whitespace-only title is used verbatim as the slide
title text; in both cases, when no deck argument is given the output file
is named paper.pptx under --outdir. -/
theorem c10_blank_title (a : CliArgs)
    (hws : (a.title.toList.all fun c => c.isWhitespace) = true)
    (hdeck : a.deck = "") :
    (if a.title = "" then titleText a.title = "(title pending)"
     else titleText a.title = a.title) ∧
    saveTarget a = SaveTarget.toOutdir a.outdir "paper.pptx" := by
  constructor
  · by_cases h : a.title = "" <;> simp [titleText, h]
  · have hs : stripTruthy a.title = false := by rw [stripTruthy_eq, hws]; rfl
    have hname : safeName a.title = "paper" := by
      simp only [safeName, hs, Bool.false_eq_true, if_false]
      decide
    have happ : ("paper" ++ ".pptx" : String) = "paper.pptx" := by decide
    simp [saveTarget, hdeck, hname, happ]

/-- Witness for claim C10 at the concrete whitespace title " ". -/
theorem c10_witness :
    (if (" " : String) = "" then titleText " " = "(title pending)"
     else titleText " " = " ") ∧
    saveTarget argsBlankTitle = SaveTarget.toOutdir "out" "paper.pptx" :=
  c10_blank_title argsBlankTitle (by decide) rfl

/-- The title component of the resolver, unfolded one step. -/
theorem pickPlaceholders_fst (rs : List Region) :
    (pickPlaceholders rs).1 =
      pickTitle (tag 0 rs) (firstPass (tag 0 rs) none none).1 := rfl

/-- The body component of the resolver, unfolded one step. -/
theorem pickPlaceholders_snd (rs : List Region) :
    (pickPlaceholders rs).2 =
      pickBody (tag 0 rs) ((pickPlaceholders rs).1)
        (firstPass (tag 0 rs) none none).2 := rfl

/-- Claim C1, counterexample: on a slide with a single BODY-tagged
text-capable placeholder, the semantic pass selects it as body and the
geometric title fallback then selects the very same region as title, so
title and body coincide. -/
theorem c1_counterexample :
    (pickPlaceholders [rOnlyBody]).1 = some (0, rOnlyBody) ∧
    (pickPlaceholders [rOnlyBody]).2 = some (0, rOnlyBody) := by
  refine ⟨?_, ?_⟩ <;> decide

/-- Claim C1 (amended): whenever both a title and a body are returned they
are distinct, provided the title was found by the semantic pass (some
region is a placeholder with a title-like kind) or no region is a
placeholder with a body-like kind; only a geometric-fallback title combined
with a semantic body can coincide. -/
theorem c1_title_body_distinct (rs : List Region)
    (h : (∃ x ∈ tag 0 rs, x.2.isPlaceholder = true ∧ TITLE_TYPES x.2.kind = true) ∨
         (∀ x ∈ tag 0 rs, ¬(x.2.isPlaceholder = true ∧ BODY_TYPES x.2.kind = true)))
    (p q : Nat × Region)
    (hp : (pickPlaceholders rs).1 = some p)
    (hq : (pickPlaceholders rs).2 = some q) :
    p ≠ q := by
  rcases hfp2 : (firstPass (tag 0 rs) none none).2 with _ | y
  · -- the body comes from the geometric fallback, which skips the title
    have hq2 : pickBodyFallback ((pickPlaceholders rs).1) (tag 0 rs) = some q := by
      have h0 := hq
      rw [pickPlaceholders_snd, hfp2] at h0
      simpa [pickBody] using h0
    have hc := pickBodyFallback_some_candidate hq2
    have hneq : ¬((pickPlaceholders rs).1 = some q) := by
      intro he
      simp [bodyCandidate, he] at hc
    intro heq
    exact hneq (by rw [hp, heq])
  · -- the body comes from the semantic pass
    have hq2 : q = y := by
      have h0 := hq
      rw [pickPlaceholders_snd, hfp2] at h0
      simp [pickBody] at h0
      exact h0.symm
    have hbodyProps : y.2.isPlaceholder = true ∧ BODY_TYPES y.2.kind = true := by
      rcases firstPass_snd_mem (tag 0 rs) none none with hnone | ⟨z, hz, he, hpz, hkz⟩
      · rw [hfp2] at hnone; cases hnone
      · rw [hfp2] at he
        have hyz : y = z := Option.some_inj.mp he
        rw [hyz]
        exact ⟨hpz, hkz⟩
    rcases hfp1 : (firstPass (tag 0 rs) none none).1 with _ | x
    · -- no semantic title: both disjuncts of h are contradictory
      exfalso
      rcases h with hT | hB
      · have hi := firstPass_fst_isSome (tag 0 rs) none none hT
        rw [hfp1] at hi
        cases hi
      · have hn := firstPass_snd_none (tag 0 rs) none hB
        rw [hfp2] at hn
        cases hn
    · -- semantic title and semantic body: kinds are disjoint
      have hp2 : p = x := by
        have h0 := hp
        rw [pickPlaceholders_fst, hfp1] at h0
        simp [pickTitle] at h0
        exact h0.symm
      have htitleProps : x.2.isPlaceholder = true ∧ TITLE_TYPES x.2.kind = true := by
        rcases firstPass_fst_mem (tag 0 rs) none none with hnone | ⟨z, hz, he, hpz, hkz⟩
        · rw [hfp1] at hnone; cases hnone
        · rw [hfp1] at he
          have hxz : x = z := Option.some_inj.mp he
          rw [hxz]
          exact ⟨hpz, hkz⟩
      intro heq
      apply title_body_disjoint p.2.kind
      constructor
      · rw [hp2]; exact htitleProps.2
      · rw [heq, hq2]; exact hbodyProps.2

/-- Witness for claim C1 on a slide holding a TITLE and a BODY placeholder:
the two resolved regions are distinct. -/
theorem c1_witness : ((0 : Nat), rTitle1) ≠ ((1 : Nat), rBody1) :=
  c1_title_body_distinct [rTitle1, rBody1] (Or.inl (by decide))
    (0, rTitle1) (1, rBody1) (by decide) (by decide)

/-- Claim C2: with no title-like kind among the regions and at least one
text-capable region, the resolver titles the text-capable region with the
smallest top, breaking top ties by the larger width-times-height area. -/
theorem c2_geometric_title (rs : List Region)
    (hT : ∀ r ∈ rs, TITLE_TYPES r.kind = false)
    (hEx : ∃ r ∈ rs, r.hasTextFrame = true) :
    ∃ i r, (pickPlaceholders rs).1 = some (i, r) ∧ r ∈ rs ∧ r.hasTextFrame = true ∧
      ∀ s ∈ rs, s.hasTextFrame = true →
        r.top ≤ s.top ∧ (r.top = s.top → area s ≤ area r) := by
  have hnone : (firstPass (tag 0 rs) none none).1 = none := by
    apply firstPass_fst_none
    intro x hx hcon
    have hfalse := hT x.2 (mem_of_mem_tag hx)
    rw [hcon.2] at hfalse
    cases hfalse
  have hfst : (pickPlaceholders rs).1 =
      pickTitleFallback ((tag 0 rs).filter fun ph => ph.2.hasTextFrame) := by
    rw [pickPlaceholders_fst, hnone]
    rfl
  obtain ⟨r0, hr0, htf0⟩ := hEx
  obtain ⟨i0, hi0⟩ := tag_mem_of_mem 0 hr0
  have hmemF : (i0, r0) ∈ (tag 0 rs).filter (fun ph => ph.2.hasTextFrame) :=
    List.mem_filter.mpr ⟨hi0, htf0⟩
  rcases hfl : (tag 0 rs).filter (fun ph => ph.2.hasTextFrame) with _ | ⟨x, xs⟩
  · rw [hfl] at hmemF
    simp at hmemF
  · obtain ⟨l1, l2, hsplit, hS, hR⟩ := foldBest_spec titleBetter
      (fun a b => lexLt (titleKey a) (titleKey b))
      (fun a b => lexLe (titleKey a) (titleKey b))
      (fun a b hab => (lexLtB_iff _ _).mp hab)
      (fun a b hab => lexLe_of_lexLtB_false hab)
      (fun a b c h1 h2 => lexLt_le_trans h1 h2)
      (fun a b c h1 h2 => lexLe_lt_trans h1 h2)
      (fun a b h1 => lexLt_to_le h1)
      (fun a => lexLe_refl _)
      xs x
    have hbmem : foldBest titleBetter x xs ∈ x :: xs := foldBest_mem titleBetter xs x
    have hbmemF : foldBest titleBetter x xs ∈
        (tag 0 rs).filter (fun ph => ph.2.hasTextFrame) := by
      rw [hfl]; exact hbmem
    have hbtag : foldBest titleBetter x xs ∈ tag 0 rs := (List.mem_filter.mp hbmemF).1
    have hbtf : (foldBest titleBetter x xs).2.hasTextFrame = true :=
      (List.mem_filter.mp hbmemF).2
    refine ⟨(foldBest titleBetter x xs).1, (foldBest titleBetter x xs).2, ?_,
      mem_of_mem_tag hbtag, hbtf, ?_⟩
    · rw [hfst, hfl]
      simp [pickTitleFallback]
    · intro s hs hstf
      obtain ⟨j, hj⟩ := tag_mem_of_mem 0 hs
      have hjF : (j, s) ∈ x :: xs := by
        rw [← hfl]; exact List.mem_filter.mpr ⟨hj, hstf⟩
      have hRb := hR (j, s) hjF
      simp only [lexLe, titleKey] at hRb
      rcases hRb with hlt | ⟨heq, hle⟩
      · refine ⟨le_of_lt hlt, fun hcon => ?_⟩
        rw [hcon] at hlt
        exact absurd hlt (lt_irrefl _)
      · exact ⟨le_of_eq heq, fun _ => by omega⟩

/-- Witness for claim C2 on two untagged text-capable regions: the region
with the smaller top is resolved as title. -/
theorem c2_witness :
    ∃ i r, (pickPlaceholders [rLow2, rHigh2]).1 = some (i, r) ∧
      r ∈ [rLow2, rHigh2] ∧ r.hasTextFrame = true ∧
      ∀ s ∈ [rLow2, rHigh2], s.hasTextFrame = true →
        r.top ≤ s.top ∧ (r.top = s.top → area s ≤ area r) :=
  c2_geometric_title [rLow2, rHigh2] (by decide) (by decide)

/-- Claim C3: with no body-like kind among the regions (all of them
placeholders), the resolver either returns no body when the claimed
candidate list is empty, or returns a candidate of maximal area such that
every candidate listed before it is strictly smaller (the first encountered
maximal candidate in declared order). -/
theorem c3_geometric_body (rs : List Region)
    (hB : ∀ r ∈ rs, BODY_TYPES r.kind = false)
    (hph : ∀ r ∈ rs, r.isPlaceholder = true) :
    (bodyCandidatesClaim rs = [] → (pickPlaceholders rs).2 = none) ∧
    (bodyCandidatesClaim rs ≠ [] →
      ∃ l1 l2 p, bodyCandidatesClaim rs = l1 ++ p :: l2 ∧
        (pickPlaceholders rs).2 = some p ∧
        (∀ y ∈ l1, area y.2 < area p.2) ∧
        (∀ y ∈ bodyCandidatesClaim rs, area y.2 ≤ area p.2)) := by
  have hsnone : (firstPass (tag 0 rs) none none).2 = none := by
    apply firstPass_snd_none
    intro y hy hcon
    have hfalse := hB y.2 (mem_of_mem_tag hy)
    rw [hcon.2] at hfalse
    cases hfalse
  have hsnd : (pickPlaceholders rs).2 =
      pickBodyFallback ((pickPlaceholders rs).1) (tag 0 rs) := by
    rw [pickPlaceholders_snd, hsnone]
    rfl
  have hfiltereq : (tag 0 rs).filter (bodyCandidate ((pickPlaceholders rs).1)) =
      bodyCandidatesClaim rs := by
    unfold bodyCandidatesClaim
    apply List.filter_congr
    intro ph hmem
    have hpl : ph.2.isPlaceholder = true := hph ph.2 (mem_of_mem_tag hmem)
    simp only [bodyCandidate, hpl]
    cases h1 : ph.2.hasTextFrame <;> cases h2 : EXCLUDE_AS_BODY ph.2.kind <;>
      cases h3 : decide ((pickPlaceholders rs).1 = some ph) <;> simp
  rcases hC : bodyCandidatesClaim rs with _ | ⟨x, xs⟩
  · refine ⟨fun _ => ?_, fun hne => absurd rfl hne⟩
    rw [hsnd]
    unfold pickBodyFallback
    rw [hfiltereq, hC]
  · constructor
    · intro hcon
      exact absurd hcon (List.cons_ne_nil x xs)
    · intro _
      have hsome : (pickPlaceholders rs).2 = some (foldBest bodyBetter x xs) := by
        rw [hsnd]
        unfold pickBodyFallback
        rw [hfiltereq, hC]
      obtain ⟨l1, l2, hsplit, hS, hR⟩ := foldBest_spec bodyBetter
        (fun a b => area b.2 < area a.2)
        (fun a b => area b.2 ≤ area a.2)
        (fun a b hab => of_decide_eq_true hab)
        (fun a b hab => le_of_not_lt (of_decide_eq_false hab))
        (fun a b c h1 h2 => lt_of_le_of_lt h2 h1)
        (fun a b c h1 h2 => lt_of_lt_of_le h2 h1)
        (fun a b h1 => le_of_lt h1)
        (fun a => le_refl _)
        xs x
      refine ⟨l1, l2, foldBest bodyBetter x xs, hsplit, hsome, hS, ?_⟩
      intro y hy
      exact hR y hy

/-- Witness for claim C3 on a TITLE placeholder plus two untagged
text-capable regions: the larger untagged region becomes the body. -/
theorem c3_witness :
    (bodyCandidatesClaim [rTitle3, rSmall3, rBig3] = [] →
      (pickPlaceholders [rTitle3, rSmall3, rBig3]).2 = none) ∧
    (bodyCandidatesClaim [rTitle3, rSmall3, rBig3] ≠ [] →
      ∃ l1 l2 p, bodyCandidatesClaim [rTitle3, rSmall3, rBig3] = l1 ++ p :: l2 ∧
        (pickPlaceholders [rTitle3, rSmall3, rBig3]).2 = some p ∧
        (∀ y ∈ l1, area y.2 < area p.2) ∧
        (∀ y ∈ bodyCandidatesClaim [rTitle3, rSmall3, rBig3],
          area y.2 ≤ area p.2)) :=
  c3_geometric_body [rTitle3, rSmall3, rBig3] (by decide) (by decide)

/-- Claim C4, counterexample: with exactly one TITLE-tagged and exactly one
BODY-tagged region but an OBJECT-kind region declared first, the semantic
pass resolves the OBJECT region as body, not the BODY-tagged region. -/
theorem c4_counterexample :
    ((tag 0 [rObj4, rTitle4, rBody4]).filter fun q =>
      decide (q.2.kind = PHKind.TITLE)).length = 1 ∧
    ((tag 0 [rObj4, rTitle4, rBody4]).filter fun q =>
      decide (q.2.kind = PHKind.BODY)).length = 1 ∧
    (pickPlaceholders [rObj4, rTitle4, rBody4]).1 = some (1, rTitle4) ∧
    (pickPlaceholders [rObj4, rTitle4, rBody4]).2 = some (0, rObj4) ∧
    (pickPlaceholders [rObj4, rTitle4, rBody4]).2 ≠ some (2, rBody4) := by
  refine ⟨?_, ?_, ?_, ?_, ?_⟩ <;> decide

/-- Claim C4 (amended): when exactly one region carries a title-like kind
(and it is tagged TITLE) and exactly one carries a body-like kind (and it
is tagged BODY), both being placeholders, the resolver returns exactly
those two regions regardless of their positions and sizes. -/
theorem c4_semantic_pair (rs : List Region) (i : Nat) (rT : Region)
    (j : Nat) (rB : Region)
    (hTmem : (i, rT) ∈ tag 0 rs) (hTkind : rT.kind = PHKind.TITLE)
    (hTph : rT.isPlaceholder = true)
    (hTuniq : ∀ q ∈ tag 0 rs, TITLE_TYPES q.2.kind = true → q = (i, rT))
    (hBmem : (j, rB) ∈ tag 0 rs) (hBkind : rB.kind = PHKind.BODY)
    (hBph : rB.isPlaceholder = true)
    (hBuniq : ∀ q ∈ tag 0 rs, BODY_TYPES q.2.kind = true → q = (j, rB)) :
    pickPlaceholders rs = (some (i, rT), some (j, rB)) := by
  have hTk : TITLE_TYPES rT.kind = true := by rw [hTkind]; rfl
  have hBk : BODY_TYPES rB.kind = true := by rw [hBkind]; rfl
  have hfsome := firstPass_fst_isSome (tag 0 rs) none none ⟨(i, rT), hTmem, hTph, hTk⟩
  have hssome := firstPass_snd_isSome (tag 0 rs) none none ⟨(j, rB), hBmem, hBph, hBk⟩
  obtain ⟨x, hx⟩ := Option.isSome_iff_exists.mp hfsome
  obtain ⟨y, hy⟩ := Option.isSome_iff_exists.mp hssome
  have hxx : x = (i, rT) := by
    rcases firstPass_fst_mem (tag 0 rs) none none with hnone | ⟨z, hz, he, hpz, hkz⟩
    · rw [hx] at hnone; cases hnone
    · rw [hx] at he
      have hxz : x = z := Option.some_inj.mp he
      rw [hxz]
      exact hTuniq z hz hkz
  have hyy : y = (j, rB) := by
    rcases firstPass_snd_mem (tag 0 rs) none none with hnone | ⟨z, hz, he, hpz, hkz⟩
    · rw [hy] at hnone; cases hnone
    · rw [hy] at he
      have hyz : y = z := Option.some_inj.mp he
      rw [hyz]
      exact hBuniq z hz hkz
  have hfst : (pickPlaceholders rs).1 = some (i, rT) := by
    rw [pickPlaceholders_fst, hx, hxx]
    rfl
  have hsnd2 : (pickPlaceholders rs).2 = some (j, rB) := by
    rw [pickPlaceholders_snd, hy, hyy]
    rfl
  exact Prod.ext hfst hsnd2

/-- Witness for claim C4 on a slide holding exactly the TITLE placeholder
and the BODY placeholder: the resolver returns exactly that pair. -/
theorem c4_witness :
    pickPlaceholders [rTitle4, rBody4] = (some (0, rTitle4), some (1, rBody4)) :=
  c4_semantic_pair [rTitle4, rBody4] 0 rTitle4 1 rBody4
    (by decide) rfl rfl (by decide) (by decide) rfl rfl (by decide)
